import Mathlib

/-!
Verification of the `Tensor<N>` class of MapsGraph (`src/main.cc`).

The class is a rectangular 2D container: fields `rows`, `cols` (C++ `int`)
and a doubly-indirected owned buffer `t`.  We embed the buffer as a
`List (List N)` of element values: the member declarations live in
`Tensor.h`, which is not part of the sources, so the element type of the
slots is taken from the spec's data model (`storage` holds values of type
`N`, indexed `[row][col]`).  A C++ loop `for (int i = 0; i < x; ++i)`
runs over `0 .. x-1` and does not run at all when `x <= 0`; we render it
as a map over `List.range x.toNat`.
-/

universe u

variable {N : Type u}

/-- Embedding of `Tensor<N>`: dimensions `rows`, `cols` (C++ `int`,
modelled as `Int`) and the owned storage `t`. -/
structure Tensor (N : Type u) where
  rows : Int
  cols : Int
  t : List (List N)

/-- Embedding of `Tensor<N>::Tensor(int x, int y)` (lines 11-20): for each
`i < x` allocate a row and assign `t[i][j] = 0` for each `j < y`.  The
zero written is the zero value of `N` (per the spec's data model; the
source writes the literal `0`). -/
def Tensor.ofDims [Zero N] (x y : Int) : Tensor N :=
  { rows := x
    cols := y
    t := (List.range x.toNat).map fun _ => (List.range y.toNat).map fun _ => (0 : N) }

/-- Embedding of `Tensor<N>::Tensor(int x, int y, N** content)`
(lines 25-34): `t[i][j] = content[i][j]` for `i < x`, `j < y`.  The
caller-supplied pointer-of-pointers buffer is modelled as the total map
`content : Nat → Nat → N` of the values it holds; the constructor reads
it only at the copied positions. -/
def Tensor.ofBuffer (x y : Int) (content : Nat → Nat → N) : Tensor N :=
  { rows := x
    cols := y
    t := (List.range x.toNat).map fun i => (List.range y.toNat).map fun j => content i j }

/-- Embedding of
`Tensor<N>::Tensor(int x, int y, std::vector<std::vector<N>> content)`
(lines 39-48): `t[i][j] = content[i][j]` for `i < x`, `j < y`.  The
unchecked `std::vector::operator[]` read is rendered with `getD` (the
spec's precondition — outer length ≥ `x`, inner lengths ≥ `y` — makes
every read in-bounds). -/
def Tensor.ofVector [Inhabited N] (x y : Int) (content : List (List N)) : Tensor N :=
  { rows := x
    cols := y
    t := (List.range x.toNat).map fun i =>
      (List.range y.toNat).map fun j => (content.getD i []).getD j default }

/-- Values stored by `Tensor<N>::size` (lines 64-68) into the local array
`s = {rows, cols}`.  The C++ function then returns the address of that
stack-local array — a dangling pointer; the pair of values is the only
well-defined content. -/
def Tensor.size (T : Tensor N) : Int × Int :=
  (T.rows, T.cols)

/-- Embedding of `Tensor<N>::operator()(int x, int y)` (lines 74-77):
`return t[x][y]`.  The C++ code performs no bounds check; the embedding
makes the out-of-bounds cases explicit by returning `none` there. -/
def Tensor.elementAt (T : Tensor N) (x y : Int) : Option N :=
  if x < 0 ∨ y < 0 then none
  else (T.t[x.toNat]?).bind fun row => row[y.toNat]?

/-- State-passing form of `size`: the method reads `rows` and `cols` and
writes no field, so the post-state is the argument itself. -/
def Tensor.sizeSt (T : Tensor N) : (Int × Int) × Tensor N :=
  (T.size, T)

/-- State-passing form of `operator()`: the method reads `t[x][y]` and
writes no field, so the post-state is the argument itself. -/
def Tensor.elementAtSt (T : Tensor N) (x y : Int) : Option N × Tensor N :=
  (T.elementAt x y, T)

/-- The storage shape invariant of the spec: `t` has exactly `rows` outer
slots and every outer slot holds exactly `cols` elements. -/
def Tensor.shapeInv (T : Tensor N) : Prop :=
  T.t.length = T.rows.toNat ∧ ∀ row ∈ T.t, row.length = T.cols.toNat

instance (T : Tensor N) : Decidable T.shapeInv :=
  inferInstanceAs
    (Decidable (T.t.length = T.rows.toNat ∧ ∀ row ∈ T.t, row.length = T.cols.toNat))

/-- An allocation owned by a `Tensor`: the outer `N*[rows]` array, or the
row buffer of row `i`. -/
inductive Alloc where
  | outer : Alloc
  | row (i : Nat) : Alloc
deriving DecidableEq

/-- Allocations performed by every constructor (lines 13, 15 and their
twins): the outer array, then one row buffer per `i < x`. -/
def ctorAllocs (x : Int) : List Alloc :=
  Alloc.outer :: (List.range x.toNat).map Alloc.row

/-- Releases performed by `Tensor<N>::~Tensor` (lines 54-59), in order:
`delete[] t[i]` for each `i < rows`, then `delete[] t`. -/
def dtorFrees (x : Int) : List Alloc :=
  ((List.range x.toNat).map Alloc.row) ++ [Alloc.outer]

lemma grid_getElem (x y i j : Int) (g : Nat → Nat → N)
    (h0i : 0 ≤ i) (hix : i < x) (h0j : 0 ≤ j) (hjy : j < y) :
    (Tensor.ofBuffer x y g).elementAt i j = some (g i.toNat j.toNat) := by
  have hi : i.toNat < x.toNat := by omega
  have hj : j.toNat < y.toNat := by omega
  have hcond : ¬(i < 0 ∨ j < 0) := by omega
  simp [Tensor.ofBuffer, Tensor.elementAt, hcond, List.getElem?_map,
    List.getElem?_range hi, List.getElem?_range hj]

lemma ofDims_eq_ofBuffer [Zero N] (x y : Int) :
    (Tensor.ofDims x y : Tensor N) = Tensor.ofBuffer x y fun _ _ => (0 : N) := rfl

lemma ofVector_eq_ofBuffer [Inhabited N] (x y : Int) (u : List (List N)) :
    Tensor.ofVector x y u = Tensor.ofBuffer x y fun i j => (u.getD i []).getD j default := rfl

/-- C1: an in-bounds `ElementAt(i, j)` on a Tensor built from a
pointer-of-pointers buffer, or from a nested sequence, returns exactly
the value the source held at position `(i, j)`. -/
theorem elementAt_after_copy_construction [Inhabited N]
    (x y i j : Int) (content : Nat → Nat → N) (u : List (List N))
    (h0i : 0 ≤ i) (hix : i < x) (h0j : 0 ≤ j) (hjy : j < y) :
    (Tensor.ofBuffer x y content).elementAt i j = some (content i.toNat j.toNat) ∧
    (Tensor.ofVector x y u).elementAt i j = some ((u.getD i.toNat []).getD j.toNat default) := by
  refine ⟨grid_getElem x y i j content h0i hix h0j hjy, ?_⟩
  rw [ofVector_eq_ofBuffer]
  exact grid_getElem x y i j _ h0i hix h0j hjy

/-- Witness for C1 at `x = 2, y = 3, i = 1, j = 2`, buffer `{{1,2,3},{4,5,6}}`
supplied both as a buffer map and as a nested sequence. -/
theorem elementAt_after_copy_construction_witness :
    (Tensor.ofBuffer 2 3 fun i j =>
      ((([[1, 2, 3], [4, 5, 6]] : List (List Int)).getD i []).getD j 0)).elementAt 1 2 = some 6 ∧
    (Tensor.ofVector 2 3 [[1, 2, 3], [4, 5, 6]] : Tensor Int).elementAt 1 2 = some 6 := by
  have h := elementAt_after_copy_construction (N := Int) 2 3 1 2
    (fun i j => ((([[1, 2, 3], [4, 5, 6]] : List (List Int)).getD i []).getD j 0))
    [[1, 2, 3], [4, 5, 6]]
    (by decide) (by decide) (by decide) (by decide)
  exact ⟨h.1.trans (by decide), h.2.trans (by decide)⟩

/-- C2: every element of a default-constructed Tensor is the zero value
of `N`; in particular every in-bounds read on a `2 × 3` default Tensor
returns `0`. -/
theorem elementAt_after_default_construction [Zero N]
    (x y i j : Int) (h0i : 0 ≤ i) (hix : i < x) (h0j : 0 ≤ j) (hjy : j < y) :
    (Tensor.ofDims x y : Tensor N).elementAt i j = some 0 := by
  rw [ofDims_eq_ofBuffer]
  exact grid_getElem x y i j _ h0i hix h0j hjy

/-- Witness for C2 at the spec's instance `rows = 2, cols = 3`: all six
in-bounds reads return `0`. -/
theorem elementAt_after_default_construction_witness :
    (Tensor.ofDims 2 3 : Tensor Int).elementAt 1 2 = some 0 ∧
    (Tensor.ofDims 2 3 : Tensor Int).elementAt 0 0 = some 0 :=
  ⟨elementAt_after_default_construction 2 3 1 2
      (by decide) (by decide) (by decide) (by decide),
    elementAt_after_default_construction 2 3 0 0
      (by decide) (by decide) (by decide) (by decide)⟩

/-- C3 (at the failing input `rows = 2, cols = 3`): the values `size`
stores into its local array are exactly `(rows, cols)`; the source then
returns a pointer to that stack-local array instead of returning the
pair by value. -/
theorem size_values_are_shape :
    (Tensor.ofDims 2 3 : Tensor Int).size = (2, 3) ∧
    (Tensor.ofBuffer 2 3 fun _ _ => (0 : Int)).size = (2, 3) ∧
    (Tensor.ofVector 2 3 ([] : List (List Int))).size = (2, 3) :=
  ⟨rfl, rfl, rfl⟩

/-- C4: the concrete reads of the spec: buffer `{{1,2,3},{4,5,6}}` with
`rows = 2, cols = 3` gives `ElementAt(1,2) = 6`; sequence `[[7],[8]]`
with `rows = 2, cols = 1` gives `ElementAt(0,0) = 7` and
`ElementAt(1,0) = 8`. -/
theorem elementAt_concrete_examples :
    (Tensor.ofBuffer 2 3 fun i j =>
      ((([[1, 2, 3], [4, 5, 6]] : List (List Int)).getD i []).getD j 0)).elementAt 1 2
        = some 6 ∧
    (Tensor.ofVector 2 1 [[7], [8]] : Tensor Int).elementAt 0 0 = some 7 ∧
    (Tensor.ofVector 2 1 [[7], [8]] : Tensor Int).elementAt 1 0 = some 8 := by
  refine ⟨?_, ?_, ?_⟩ <;> decide

/-- C5: the storage shape invariant — exactly `rows` outer slots, each
with exactly `cols` elements — holds at the end of each of the three
constructors, and both accessors leave the state (hence the invariant)
untouched. -/
theorem shapeInv_lifetime [Zero N] [Inhabited N]
    (x y : Int) (content : Nat → Nat → N) (u : List (List N)) :
    (Tensor.ofDims x y : Tensor N).shapeInv ∧
    (Tensor.ofBuffer x y content).shapeInv ∧
    (Tensor.ofVector x y u).shapeInv ∧
    (∀ (T : Tensor N) (i j : Int), T.shapeInv →
      T.sizeSt.2.shapeInv ∧ (T.elementAtSt i j).2.shapeInv) := by
  refine ⟨?_, ?_, ?_, fun T i j h => ⟨h, h⟩⟩ <;>
    refine ⟨by simp [Tensor.ofDims, Tensor.ofBuffer, Tensor.ofVector], ?_⟩ <;>
    · intro row hrow
      simp only [Tensor.ofDims, Tensor.ofBuffer, Tensor.ofVector, List.mem_map] at hrow
      obtain ⟨a, -, rfl⟩ := hrow
      simp [Tensor.ofDims, Tensor.ofBuffer, Tensor.ofVector]

/-- Witness for C5 at `x = 2, y = 3`: the invariant holds after default
construction and is kept by a `sizeSt` call. -/
theorem shapeInv_lifetime_witness :
    (Tensor.ofDims 2 3 : Tensor Int).shapeInv ∧
    ((Tensor.ofDims 2 3 : Tensor Int).sizeSt.2.shapeInv ∧
      ((Tensor.ofDims 2 3 : Tensor Int).elementAtSt 0 0).2.shapeInv) := by
  have h := shapeInv_lifetime (N := Int) 2 3 (fun _ _ => 0) []
  exact ⟨h.1, h.2.2.2 (Tensor.ofDims 2 3) 0 0 h.1⟩

/-- C6: under the caller's precondition `0 ≤ row < rows` and
`0 ≤ col < cols` (with the storage shape invariant), the access
`t[row][col]` stays inside the allocated storage: the guarded embedding
never takes the out-of-bounds branch. -/
theorem elementAt_in_bounds_is_defined (T : Tensor N) (i j : Int)
    (hInv : T.shapeInv) (h0i : 0 ≤ i) (hir : i < T.rows)
    (h0j : 0 ≤ j) (hjc : j < T.cols) :
    (T.elementAt i j).isSome := by
  obtain ⟨hlen, hrows⟩ := hInv
  have hcond : ¬(i < 0 ∨ j < 0) := by omega
  have hi : i.toNat < T.t.length := by omega
  have hrow : (T.t[i.toNat]).length = T.cols.toNat := hrows _ (List.getElem_mem hi)
  have hj : j.toNat < (T.t[i.toNat]).length := by omega
  simp [Tensor.elementAt, hcond, List.getElem?_eq_getElem hi, List.getElem?_eq_getElem hj]

/-- Witness for C6 on a default-constructed `1 × 1` Tensor at `(0, 0)`. -/
theorem elementAt_in_bounds_is_defined_witness :
    (Tensor.ofDims 1 1 : Tensor Int).shapeInv ∧
    ((Tensor.ofDims 1 1 : Tensor Int).elementAt 0 0).isSome := by
  have hInv : (Tensor.ofDims 1 1 : Tensor Int).shapeInv := by decide
  exact ⟨hInv, elementAt_in_bounds_is_defined (Tensor.ofDims 1 1) 0 0 hInv
    (by decide) (by decide) (by decide) (by decide)⟩

/-- C7: the destructor's releases are a permutation of the constructor's
allocations (everything owned is released, nothing else), each owned
allocation is released exactly once, and the order is every row buffer
first with the outer container released last. -/
theorem dtor_releases_each_alloc_once (x : Int) :
    (dtorFrees x).Perm (ctorAllocs x) ∧
    (∀ a ∈ ctorAllocs x, (dtorFrees x).count a = 1) ∧
    (dtorFrees x).dropLast = (List.range x.toNat).map Alloc.row ∧
    (dtorFrees x).getLast? = some Alloc.outer := by
  have hperm : (dtorFrees x).Perm (ctorAllocs x) :=
    List.perm_append_singleton Alloc.outer ((List.range x.toNat).map Alloc.row)
  have hinj : Function.Injective Alloc.row := fun a b h => by injection h
  have hnodup : (ctorAllocs x).Nodup := by
    refine List.Nodup.cons ?_ ((List.nodup_range x.toNat).map hinj)
    simp [ctorAllocs]
  refine ⟨hperm, fun a ha => ?_, List.dropLast_concat, List.getLast?_concat _⟩
  rw [hperm.count_eq]
  exact List.count_eq_one_of_mem hnodup ha

/-- Witness for C7 at `rows = 2`: the row-1 buffer is an owned
allocation and the destructor releases it exactly once. -/
theorem dtor_releases_each_alloc_once_witness :
    Alloc.row 1 ∈ ctorAllocs 2 ∧ (dtorFrees 2).count (Alloc.row 1) = 1 :=
  ⟨by decide, (dtor_releases_each_alloc_once 2).2.1 (Alloc.row 1) (by decide)⟩

/-- C8: `size` and `operator()` are pure reads: in the state-passing
rendering the post-state is the pre-state, so `rows`, `cols` and every
stored element are unchanged by either accessor. -/
theorem accessors_do_not_modify (T : Tensor N) (i j : Int) :
    T.sizeSt.2 = T ∧ (T.elementAtSt i j).2 = T ∧
    T.sizeSt.2.rows = T.rows ∧ T.sizeSt.2.cols = T.cols ∧ T.sizeSt.2.t = T.t ∧
    (T.elementAtSt i j).2.t = T.t :=
  ⟨rfl, rfl, rfl, rfl, rfl, rfl⟩

/-- C9: construction with `rows = 0` writes no element at all (`t` is
empty) and reports size `(0, cols)`; construction with `cols = 0` writes
no element per row (every row is empty) and reports size `(rows, 0)`. -/
theorem empty_shape_construction [Zero N] (x y : Int) :
    (Tensor.ofDims 0 y : Tensor N).t = [] ∧
    (Tensor.ofDims 0 y : Tensor N).size = (0, y) ∧
    (Tensor.ofDims x 0 : Tensor N).t = List.replicate x.toNat [] ∧
    (Tensor.ofDims x 0 : Tensor N).size = (x, 0) := by
  refine ⟨rfl, rfl, ?_, rfl⟩
  simp [Tensor.ofDims]

/-- C10: the copying constructors read only the `rows × cols` prefix of
their source: two buffer maps (or two nested sequences) that agree on
that prefix yield Tensors with the same size and the same result of
every `ElementAt` call. -/
theorem constructors_read_only_prefix [Inhabited N]
    (x y : Int) (f g : Nat → Nat → N) (u v : List (List N))
    (hfg : ∀ i < x.toNat, ∀ j < y.toNat, f i j = g i j)
    (huv : ∀ i < x.toNat, ∀ j < y.toNat,
      (u.getD i []).getD j default = (v.getD i []).getD j default) :
    ((Tensor.ofBuffer x y f).size = (Tensor.ofBuffer x y g).size ∧
      ∀ i j : Int, (Tensor.ofBuffer x y f).elementAt i j
        = (Tensor.ofBuffer x y g).elementAt i j) ∧
    ((Tensor.ofVector x y u).size = (Tensor.ofVector x y v).size ∧
      ∀ i j : Int, (Tensor.ofVector x y u).elementAt i j
        = (Tensor.ofVector x y v).elementAt i j) := by
  have key : ∀ p q : Nat → Nat → N, (∀ i < x.toNat, ∀ j < y.toNat, p i j = q i j) →
      Tensor.ofBuffer x y p = Tensor.ofBuffer x y q := by
    intro p q hpq
    unfold Tensor.ofBuffer
    congr 1
    refine List.map_congr_left fun i hi => ?_
    refine List.map_congr_left fun j hj => ?_
    exact hpq i (List.mem_range.mp hi) j (List.mem_range.mp hj)
  have h1 := key f g hfg
  have h2 := key _ _ huv
  constructor
  · exact ⟨by rw [h1], fun i j => by rw [h1]⟩
  · rw [ofVector_eq_ofBuffer x y u, ofVector_eq_ofBuffer x y v, h2]
    exact ⟨rfl, fun i j => rfl⟩

/-- Witness for C10 at `rows = cols = 1`: a buffer map changed outside the
prefix, and a sequence given an extra row, leave `ElementAt(0,0)`
unchanged. -/
theorem constructors_read_only_prefix_witness :
    (Tensor.ofBuffer 1 1 fun _ _ => (5 : Int)).elementAt 0 0
      = (Tensor.ofBuffer 1 1 fun i _ => if i = 0 then (5 : Int) else 9).elementAt 0 0 ∧
    (Tensor.ofVector 1 1 [[(5 : Int)]]).elementAt 0 0
      = (Tensor.ofVector 1 1 [[(5 : Int)], [7]]).elementAt 0 0 := by
  have h := constructors_read_only_prefix (N := Int) 1 1 (fun _ _ => 5)
    (fun i _ => if i = 0 then 5 else 9) [[5]] [[5], [7]] (by decide) (by decide)
  exact ⟨h.1.2 0 0, h.2.2 0 0⟩
